import Mathlib

/-!
# Verification of the timetable scheduling engine

A shallow embedding of `src/lib/timetable-scheduler.ts` (class `TimetableScheduler`).

Modelling conventions:
* Timestamps are naive local wall-clock instants measured in whole minutes since an
  epoch (`Nat`).  A calendar day is 1440 minutes; `dayIndex t = t / 1440` models the
  date-only part (`setHours(0,0,0,0)` / `toDateString()` equality), `hourOf` and
  `minuteOf` model `getHours()` / `getMinutes()`.  The epoch day is a Thursday
  (JS epoch 1970-01-01), so `getDay()` is `(dayIndex t + 4) % 7`.
* Date-only strings (`YYYY-MM-DD`, used for recurring exceptions) are modelled by
  the day index; under naive local time both producers in the source
  (`toISOString().split('T')[0]` and the `getFullYear/getMonth/getDate` template)
  map a date to exactly its calendar day.
* JS millisecond arithmetic (`duration * 60000` etc.) becomes minute arithmetic.
* `Array.prototype.sort` is a stable sort; a comparator `(a,b) => k(a) - k(b)`
  becomes the order `k a ≤ k b`.  A stable sort's output is uniquely determined
  by the comparator and the input, so the model may pick any stable sorting
  algorithm; `List.insertionSort` (stable, structurally recursive and hence
  executable by the kernel) is used.
* The TS class keeps `tasks` / `unavailableBlocks` as instance state and reads the
  ambient clock `new Date()`; per the spec's externally visible contract these are
  explicit arguments (`tasks`, `blocks`, `now`).  Internal parameters of the form
  `currentTime ?? new Date()` always denote the same instant `now` and are passed
  through directly.
* Optional TS fields that are only ever read through `?.` with a `?? false` /
  absent-means-empty default (`recurring.days`, `recurring.exceptions`) are
  modelled as lists defaulting to `[]`; genuinely significant optionals
  (`scheduledTime`, `task`, `recurring`, `description`) are `Option`s.
-/

namespace Sched

/-- Minutes in one calendar day. -/
def minutesPerDay : Nat := 1440

/-- The calendar day of an instant (models the date-only part of a `Date`). -/
def dayIndex (t : Nat) : Nat := t / minutesPerDay

/-- Midnight of the day of `t` (models `d.setHours(0,0,0,0)`). -/
def startOfDay (t : Nat) : Nat := minutesPerDay * dayIndex t

/-- Hour-of-day of an instant (models `getHours()`). -/
def hourOf (t : Nat) : Nat := t % minutesPerDay / 60

/-- Minute-of-hour of an instant (models `getMinutes()`). -/
def minuteOf (t : Nat) : Nat := t % 60

/-- Same calendar day (models `a.toDateString() === b.toDateString()`). -/
def sameDay (a b : Nat) : Bool := dayIndex a == dayIndex b

/-- Weekday number, 0 = Sunday (models `getDay()`; the epoch day is a Thursday). -/
def getDayOfWeek (t : Nat) : Nat := (dayIndex t + 4) % 7

/-- The date-only string of an instant, rendered from the day index
(models both `toDateString()` in block ids and `YYYY-MM-DD` strings). -/
def dateKey (t : Nat) : String := Nat.repr (dayIndex t)

inductive Priority
  | low
  | medium
  | high
deriving DecidableEq, Repr

inductive TaskKind
  | work
  | study
  | leisure
deriving DecidableEq, Repr

/-- A task record (`Task` in `types/task`).  `createdAt` is informational only and
never read by the scheduler, so it is omitted from the embedding. -/
structure Task where
  id : String
  name : String
  duration : Nat
  deadline : Nat
  priority : Priority
  type : TaskKind
  completed : Bool
  scheduledTime : Option Nat := none
deriving DecidableEq, Repr

inductive RecurringType
  | daily
  | weekly
deriving DecidableEq, Repr

/-- The `recurring` rule of an unavailable block.  `days` and `exceptions` are only
read with absent-means-empty semantics in the source, hence plain lists. -/
structure RecurringRule where
  type : RecurringType
  days : List Nat := []
  exceptions : List Nat := []
deriving DecidableEq, Repr

structure UnavailableBlock where
  id : String
  title : String
  description : Option String := none
  startTime : Nat
  endTime : Nat
  recurring : Option RecurringRule := none
deriving DecidableEq, Repr

inductive BlockType
  | task
  | brk
  | unavailable
deriving DecidableEq, Repr

/-- An entry of a generated timetable (`TimeBlock`). -/
structure TimeBlock where
  id : String
  type : BlockType
  taskId : Option String := none
  task : Option Task := none
  startTime : Nat
  endTime : Nat
  title : String
  description : Option String := none
  isFixed : Bool := false
deriving DecidableEq, Repr

def priorityText : Priority → String
  | .low => "low"
  | .medium => "medium"
  | .high => "high"

def kindText : TaskKind → String
  | .work => "work"
  | .study => "study"
  | .leisure => "leisure"

/-- The description template used for generated task blocks. -/
def taskDescText (t : Task) : String :=
  kindText t.type ++ " • " ++ priorityText t.priority ++ " priority • "
    ++ Nat.repr t.duration ++ "m"

/-- `slotsOverlap` from the source: strict interval overlap. -/
def slotsOverlap (start1 end1 start2 end2 : Nat) : Bool :=
  decide (start1 < end2) && decide (end1 > start2)

/-- The overlap relation of the spec's no-overlap invariant:
`a.start < b.end && a.end > b.start`. -/
def blockOverlaps (a b : TimeBlock) : Prop :=
  a.startTime < b.endTime ∧ a.endTime > b.startTime

instance (a b : TimeBlock) : Decidable (blockOverlaps a b) :=
  inferInstanceAs (Decidable (And _ _))

/-- `shouldIncludeBlock`: does an unavailable-block definition apply to `date`?
Non-recurring blocks apply on their own calendar day; recurring ones first check
the exception list, then `daily` always applies and `weekly` applies on listed
weekdays. -/
def shouldIncludeBlock (block : UnavailableBlock) (date : Nat) : Bool :=
  match block.recurring with
  | none => sameDay block.startTime date
  | some r =>
    if r.exceptions.contains (dayIndex date) then false
    else
      match r.type with
      | .daily => true
      | .weekly => r.days.contains (getDayOfWeek date)

/-- The unavailable `TimeBlock` materialized for `date` from a block definition
(the `timetable.push` in `addUnavailableBlocks`): the block's time-of-day is
combined with `date`'s calendar day. -/
def mkUnavailableTimeBlock (block : UnavailableBlock) (date : Nat) : TimeBlock :=
  { id := "unavailable-" ++ block.id ++ "-" ++ dateKey date
    type := .unavailable
    startTime := startOfDay date + 60 * hourOf block.startTime + minuteOf block.startTime
    endTime := startOfDay date + 60 * hourOf block.endTime + minuteOf block.endTime
    title := block.title
    description := block.description
    isFixed := true }

/-- `addUnavailableBlocks`: materialize every applicable block definition. -/
def unavailableBlocksFor (blocks : List UnavailableBlock) (date : Nat) : List TimeBlock :=
  blocks.filterMap fun b =>
    if shouldIncludeBlock b date then some (mkUnavailableTimeBlock b date) else none

/-- The task `TimeBlock` pushed by `addExistingScheduledTasks` for a task already
scheduled at instant `s` on the target date. -/
def mkScheduledTimeBlock (task : Task) (s : Nat) (date : Nat) : TimeBlock :=
  { id := "scheduled-" ++ task.id ++ "-" ++ dateKey date
    type := .task
    taskId := some task.id
    task := some task
    startTime := s
    endTime := s + task.duration
    title := task.name
    description := some (taskDescText task) }

/-- `addExistingScheduledTasks`: keep, as fixed task blocks, the incomplete tasks
whose `scheduledTime` falls on `date` — except stale ones (today with the
scheduled instant already at or before `now`). -/
def existingScheduledBlocks (tasks : List Task) (date now : Nat) : List TimeBlock :=
  tasks.filterMap fun task =>
    if task.completed then none
    else
      match task.scheduledTime with
      | none => none
      | some s =>
        if dayIndex s == dayIndex date then
          if sameDay date now && decide (s ≤ now) then none
          else some (mkScheduledTimeBlock task s date)
        else none

/-- `getTasksForRescheduling`: which tasks need (re)placement on `targetDate`.
All date comparisons in the source truncate to midnight; truncated comparison of
instants is exactly comparison of day indices. -/
def getTasksForRescheduling (tasks : List Task) (targetDate now : Nat) : List Task :=
  let isToday := sameDay targetDate now
  tasks.filter fun task =>
    if task.completed then false
    else if dayIndex targetDate < dayIndex now then false
    else
      let isOverdue := dayIndex task.deadline < dayIndex now
      match task.scheduledTime with
      | some s =>
        if dayIndex s == dayIndex targetDate then
          -- stale placement on today must move; otherwise already handled as fixed
          isToday && decide (s ≤ now)
        else if dayIndex s < dayIndex now then true
        else false
      | none =>
        if isOverdue && decide (dayIndex now ≤ dayIndex targetDate) then true
        else decide (dayIndex targetDate ≤ dayIndex task.deadline)

/-- The urgency score of `prioritizeTasks`.  `hoursToDeadline ≤ h` over real
division by a positive constant is exactly `deadline - now ≤ 60*h` in minutes.
The two length penalties are separate `if` statements in the source and therefore
cumulative. -/
def getScore (now : Nat) (task : Task) : Int :=
  let minutesToDeadline : Int := (task.deadline : Int) - (now : Int)
  let urgency : Int :=
    if minutesToDeadline ≤ 24 * 60 then 80
    else if minutesToDeadline ≤ 48 * 60 then 60
    else if minutesToDeadline ≤ 168 * 60 then 40
    else 15
  let priorityScore : Int :=
    match task.priority with
    | .high => 40
    | .medium => 25
    | .low => 10
  let typeScore : Int :=
    match task.type with
    | .work => 15
    | .study => 12
    | .leisure => 8
  let penaltyOver120 : Int := if 120 < task.duration then 10 else 0
  let penaltyOver180 : Int := if 180 < task.duration then 15 else 0
  urgency + priorityScore + typeScore - penaltyOver120 - penaltyOver180

/-- `prioritizeTasks`: stable descending sort by score (the comparator
`getScore(b) - getScore(a)` orders `a` before `b` iff `getScore b ≤ getScore a`,
ties keeping input order).  `targetDate` is accepted but unused, as in the
source. -/
def prioritizeTasks (tasks : List Task) (targetDate now : Nat) : List Task :=
  let _ := targetDate
  List.insertionSort (fun a b => getScore now b ≤ getScore now a) tasks

/-- The working-window start of `findAvailableSlot`: 06:00 of the target date,
advanced — when the date is today and `now` is past 06:00 — to `now + 15min` with
the minute-of-hour rounded up to a multiple of 15.  The rounded hour/minute of
`now + 15` are re-applied to the *target* date exactly as `setHours` does in the
source (including the wrap-around when `now + 15` falls on the next day). -/
def adjustedDayStart (date now : Nat) : Nat :=
  let dayStart := startOfDay date + 6 * 60
  if sameDay date now && decide (dayStart < now) then
    let nextSlot := now + 15
    let roundedMinutes := ((minuteOf nextSlot + 14) / 15) * 15
    if 60 ≤ roundedMinutes then startOfDay date + 60 * (hourOf nextSlot + 1)
    else startOfDay date + 60 * hourOf nextSlot + roundedMinutes
  else dayStart

/-- A 15-minute granule with its availability flag. -/
structure Slot where
  start : Nat
  available : Bool
deriving DecidableEq, Repr

/-- The granule list of `findAvailableSlot`: starts stepping by 15 from
`dayStart` while strictly before `latestTaskStart`, keeping only granules ending
by `dayEnd`; a granule is available iff it overlaps no existing block. -/
def buildSlots (dayStart : Nat) (latestTaskStart : Int) (dayEnd : Nat)
    (timetable : List TimeBlock) : List Slot :=
  let numIter : Nat := ((latestTaskStart - (dayStart : Int) + 14).toNat) / 15
  (List.range numIter).filterMap fun i =>
    let s := dayStart + 15 * i
    if s + 15 ≤ dayEnd then
      some { start := s
             available := timetable.all fun b =>
               !slotsOverlap s (s + 15) b.startTime b.endTime }
    else none

/-- The minimum-break rule checked before accepting a run: once 90 minutes of
continuous work have accumulated, the gap since the last placed task's end must
be at least 30 minutes when the accumulated work is at least 120 minutes, else
15 minutes.  (A zero `continuousWorkTime` is falsy in the source and skips the
check; `0 < 90` makes that coincide with the `90 ≤` test.) -/
def breakTooSoon (lastTaskEndTime : Option Nat) (continuousWorkTime : Nat)
    (proposedStart : Nat) : Bool :=
  match lastTaskEndTime with
  | some lastEnd =>
    if 90 ≤ continuousWorkTime then
      let minBreak : Int := if 120 ≤ continuousWorkTime then 30 else 15
      decide ((proposedStart : Int) - (lastEnd : Int) < minBreak)
    else false
  | none => false

/-- One iteration of the scan of `findAvailableSlot` at candidate position `i`:
if the run of `requiredSlots` consecutive granules starting at `i` is available,
re-verify the exact interval against every block and apply the minimum-break
rule, returning `(start, start + duration)` on success and `none` (the loop's
`continue`) on any failure. -/
def attemptRun (slots : List Slot) (requiredSlots duration dayEnd : Nat)
    (timetable : List TimeBlock) (lastTaskEndTime : Option Nat)
    (continuousWorkTime : Nat) (i : Nat) : Option (Nat × Nat) :=
  let consecutive := (slots.drop i).take requiredSlots
  if consecutive.all (·.available) then
    match consecutive.head? with
    | none => none
    | some firstSlot =>
      let proposedStart := firstSlot.start
      let actualEnd := proposedStart + duration
      if dayEnd < actualEnd then none
      else if timetable.any fun b =>
          slotsOverlap proposedStart actualEnd b.startTime b.endTime then none
      else if breakTooSoon lastTaskEndTime continuousWorkTime proposedStart then none
      else some (proposedStart, actualEnd)
  else none

/-- The left-to-right scan of `findAvailableSlot` over candidate run positions:
the first position whose attempt succeeds wins. -/
def tryRuns (slots : List Slot) (requiredSlots duration dayEnd : Nat)
    (timetable : List TimeBlock) (lastTaskEndTime : Option Nat)
    (continuousWorkTime : Nat) : List Nat → Option (Nat × Nat)
  | [] => none
  | i :: rest =>
    match attemptRun slots requiredSlots duration dayEnd timetable lastTaskEndTime
        continuousWorkTime i with
    | some r => some r
    | none => tryRuns slots requiredSlots duration dayEnd timetable lastTaskEndTime
        continuousWorkTime rest

/-- `findAvailableSlot`: earliest feasible `[start, start+duration)` for a task of
`duration` minutes on `date`, against the blocks already in `timetable`. -/
def findAvailableSlot (timetable : List TimeBlock) (duration : Nat) (date now : Nat)
    (lastTaskEndTime : Option Nat) (continuousWorkTime : Nat) : Option (Nat × Nat) :=
  if dayIndex date < dayIndex now then none
  else
    let dayStart := adjustedDayStart date now
    let dayEnd := startOfDay date + 23 * 60
    let latestTaskStart : Int := (dayEnd : Int) - (duration : Int)
    let slots := buildSlots dayStart latestTaskStart dayEnd timetable
    let requiredSlots := (duration + 14) / 15
    let candidates := List.range (slots.length + 1 - requiredSlots)
    tryRuns slots requiredSlots duration dayEnd timetable lastTaskEndTime
      continuousWorkTime candidates

/-- The task block pushed by `placeTasks` for a slot `[s, e)`: it carries a
snapshot of the task with `scheduledTime` set to the slot start. -/
def mkTaskBlock (task : Task) (s e date : Nat) : TimeBlock :=
  { id := "task-" ++ task.id ++ "-" ++ dateKey date
    type := .task
    taskId := some task.id
    task := some { task with scheduledTime := some s }
    startTime := s
    endTime := e
    title := task.name
    description := some (taskDescText task) }

/-- The placement loop of `placeTasks`, threading the last placed end time and
the accumulated continuous work time (reset to 0 once it exceeds 90).  The
source also writes the slot back into its private `tasks` array, which nothing
in `generateTimetable` reads afterwards. -/
def placeTasksGo (date now : Nat) :
    List TimeBlock → List Task → Option Nat → Nat → List TimeBlock
  | timetable, [], _, _ => timetable
  | timetable, task :: rest, lastEnd, cw =>
    match findAvailableSlot timetable task.duration date now lastEnd cw with
    | none => placeTasksGo date now timetable rest lastEnd cw
    | some (s, e) =>
      let cw1 := cw + task.duration
      placeTasksGo date now (timetable ++ [mkTaskBlock task s e date]) rest (some e)
        (if 90 < cw1 then 0 else cw1)

/-- `placeTasks`: greedy allocation of the ordered tasks. -/
def placeTasks (timetable : List TimeBlock) (tasks : List Task) (date now : Nat) :
    List TimeBlock :=
  placeTasksGo date now timetable tasks none 0

/-- The break block pushed by `insertIntelligentBreaks` between adjacent task
blocks `a` and `b`. -/
def mkBreakBlock (a b : TimeBlock) (needsLong needsRest : Bool) (breakEnd : Nat) :
    TimeBlock :=
  { id := "break-" ++ a.id ++ "-" ++ b.id
    type := .brk
    startTime := a.endTime
    endTime := breakEnd
    title :=
      if needsLong then "Extended Break"
      else if needsRest then "Rest Break"
      else "Short Break"
    description := some
      (if needsLong then "Extended rest for wellbeing"
       else if needsRest then "Recovery from intensive work"
       else "Quick refresh") }

/-- The pairwise pass of `insertIntelligentBreaks` over the start-sorted task
blocks, accumulating continuous work time and collecting the break blocks to
append. -/
def breaksLoop : List TimeBlock → Nat → List TimeBlock
  | [], _ => []
  | [_], _ => []
  | a :: b :: rest, cw =>
    let taskDuration := (a.task.map Task.duration).getD 0
    let cw1 := cw + taskDuration
    let minutesBetween : Int := (b.startTime : Int) - (a.endTime : Int)
    let needsShortBreak := decide (45 ≤ taskDuration) && decide (15 ≤ minutesBetween)
    let needsLongBreak := decide (90 ≤ cw1) && decide (30 ≤ minutesBetween)
    let currentIntensive := a.task.any (fun t => t.priority == .high)
      || decide (90 ≤ (a.task.map Task.duration).getD 0)
    let nextIntensive := b.task.any (fun t => t.priority == .high)
      || decide (90 ≤ (b.task.map Task.duration).getD 0)
    let needsRestBreak := currentIntensive && nextIntensive && decide (15 ≤ minutesBetween)
    let shouldBreak := (needsLongBreak || needsRestBreak || needsShortBreak)
      && decide (15 ≤ minutesBetween)
    let breakDuration : Nat := if needsLongBreak then 30 else 15
    let breakEnd := a.endTime + breakDuration
    let inserted := shouldBreak && decide (breakEnd ≤ b.startTime)
    let cw2 := if inserted && needsLongBreak then 0 else cw1
    let cw3 := if 60 ≤ minutesBetween then 0 else cw2
    (if inserted then [mkBreakBlock a b needsLongBreak needsRestBreak breakEnd] else [])
      ++ breaksLoop (b :: rest) cw3

/-- `insertIntelligentBreaks`: append the computed break blocks to the
timetable. -/
def insertIntelligentBreaks (timetable : List TimeBlock) : List TimeBlock :=
  let taskBlocks := List.insertionSort (fun x y => x.startTime ≤ y.startTime)
    (timetable.filter fun blk => blk.type == BlockType.task)
  timetable ++ breaksLoop taskBlocks 0

/-- The final filter of `generateTimetable`: drop task blocks whose carried task
is completed; everything else passes. -/
def keepBlock (blk : TimeBlock) : Bool :=
  match blk.type, blk.task with
  | BlockType.task, some t => !t.completed
  | _, _ => true

/-- The fixed blocks materialized before allocation: applicable unavailable
blocks followed by kept pre-scheduled task blocks. -/
def fixedBlocks (date : Nat) (tasks : List Task) (blocks : List UnavailableBlock)
    (now : Nat) : List TimeBlock :=
  unavailableBlocksFor blocks (startOfDay date)
    ++ existingScheduledBlocks tasks (startOfDay date) now

/-- `generateTimetable`: full regeneration for the calendar day of `date`.
The past-date guard `targetDate < today` on midnight-truncated instants is
day-index comparison. -/
def generateTimetable (date : Nat) (tasks : List Task)
    (blocks : List UnavailableBlock) (now : Nat) : List TimeBlock :=
  let targetDate := startOfDay date
  if dayIndex date < dayIndex now then []
  else
    let timetable := unavailableBlocksFor blocks targetDate
      ++ existingScheduledBlocks tasks targetDate now
    let eligibleTasks := getTasksForRescheduling tasks targetDate now
    let sortedTasks := prioritizeTasks eligibleTasks targetDate now
    let placed := placeTasks timetable sortedTasks targetDate now
    let withBreaks := insertIntelligentBreaks placed
    List.insertionSort (fun x y => x.startTime ≤ y.startTime) (withBreaks.filter keepBlock)

/-- `rescheduleTask` on an explicitly provided timetable: locate the first block
for `taskId`, reject silently on a missing block or any overlap of the moved
interval with another block, otherwise update exactly that block. -/
def rescheduleTask (taskId : String) (newStartTime : Nat)
    (timetable : List TimeBlock) : List TimeBlock :=
  match timetable.findIdx? fun blk => blk.taskId == some taskId with
  | none => timetable
  | some taskIndex =>
    match timetable[taskIndex]? with
    | none => timetable
    | some taskBlock =>
      match taskBlock.task with
      | none => timetable
      | some task =>
        let newEndTime := newStartTime + task.duration
        let conflictExists := timetable.enum.any fun p =>
          decide (p.1 ≠ taskIndex)
            && slotsOverlap newStartTime newEndTime p.2.startTime p.2.endTime
        if conflictExists then timetable
        else timetable.set taskIndex
          { taskBlock with
            startTime := newStartTime
            endTime := newEndTime
            task := some { task with scheduledTime := some newStartTime } }

/-- `addExceptionToRecurringBlock`, with the instance's block list made explicit:
append `exceptionDate`'s date-only string to the found block's exception list if
not already present; no-op (returning `false`) when the block is missing or not
recurring. -/
def addExceptionToRecurringBlock (blocks : List UnavailableBlock) (blockId : String)
    (exceptionDate : Nat) : List UnavailableBlock × Bool :=
  match blocks.findIdx? fun b => b.id == blockId with
  | none => (blocks, false)
  | some i =>
    match blocks[i]? with
    | none => (blocks, false)
    | some b =>
      match b.recurring with
      | none => (blocks, false)
      | some r =>
        let ds := dayIndex exceptionDate
        if r.exceptions.contains ds then (blocks, true)
        else
          (blocks.set i { b with recurring := some { r with exceptions := r.exceptions ++ [ds] } },
            true)

/-- Modelled from the spec's words for claim C3 only (not from the source): the
claimed score with a *non-cumulative* length penalty — exactly 15 when
duration > 180, else exactly 10 when duration > 120, else 0. -/
def claimedScore (now : Nat) (task : Task) : Int :=
  let minutesToDeadline : Int := (task.deadline : Int) - (now : Int)
  let urgency : Int :=
    if minutesToDeadline ≤ 24 * 60 then 80
    else if minutesToDeadline ≤ 48 * 60 then 60
    else if minutesToDeadline ≤ 168 * 60 then 40
    else 15
  let priorityScore : Int :=
    match task.priority with
    | .high => 40
    | .medium => 25
    | .low => 10
  let typeScore : Int :=
    match task.type with
    | .work => 15
    | .study => 12
    | .leisure => 8
  let lengthPenalty : Int :=
    if 180 < task.duration then 15
    else if 120 < task.duration then 10
    else 0
  urgency + priorityScore + typeScore - lengthPenalty

/-- Modelled from the spec's words for claim C3 only: stable descending sort by
`claimedScore`. -/
def claimedPrioritize (tasks : List Task) (now : Nat) : List Task :=
  List.insertionSort (fun a b => claimedScore now b ≤ claimedScore now a) tasks

end Sched

namespace Sched

/-! ## General lemmas about the embedding -/

theorem dayIndex_startOfDay (t : Nat) : dayIndex (startOfDay t) = dayIndex t := by
  simp only [dayIndex, startOfDay]
  rw [Nat.mul_div_cancel_left _ (by decide : 0 < minutesPerDay)]

theorem blockOverlaps_symm {a b : TimeBlock} (h : blockOverlaps a b) :
    blockOverlaps b a :=
  ⟨h.2, h.1⟩

/-- The final ascending-by-start sort yields a list pairwise ordered by start time. -/
theorem pairwise_sort_le_startTime (l : List TimeBlock) :
    (List.insertionSort (fun x y => x.startTime ≤ y.startTime) l).Pairwise
      fun a b => a.startTime ≤ b.startTime := by
  haveI : IsTotal TimeBlock fun x y => x.startTime ≤ y.startTime :=
    ⟨fun a b => Nat.le_total a.startTime b.startTime⟩
  haveI : IsTrans TimeBlock fun x y => x.startTime ≤ y.startTime :=
    ⟨fun _ _ _ hab hbc => Nat.le_trans hab hbc⟩
  exact List.sorted_insertionSort _ l

/-! ## C2: determinism -/

/-- C2: `generateTimetable` is a pure function of its four arguments — two calls
with identical target date, task list, unavailable-block list and reference
instant `now` produce identical output sequences. -/
theorem generateTimetable_deterministic (d1 d2 : Nat) (tasks1 tasks2 : List Task)
    (blocks1 blocks2 : List UnavailableBlock) (now1 now2 : Nat)
    (hd : d1 = d2) (ht : tasks1 = tasks2) (hb : blocks1 = blocks2)
    (hn : now1 = now2) :
    generateTimetable d1 tasks1 blocks1 now1 = generateTimetable d2 tasks2 blocks2 now2 := by
  subst hd; subst ht; subst hb; subst hn; rfl

/-- Witness for C2 at a concrete input. -/
theorem generateTimetable_deterministic_witness :
    generateTimetable 14400 [] [] 14400 = generateTimetable 14400 [] [] 14400 :=
  generateTimetable_deterministic 14400 14400 [] [] [] [] 14400 14400 rfl rfl rfl rfl

/-! ## C6: past-date guard -/

/-- C6: when the target date's calendar day is strictly before `now`'s calendar
day, `generateTimetable` returns the empty sequence, whatever the task and
unavailable-block inputs. -/
theorem generateTimetable_past_date_empty (date : Nat) (tasks : List Task)
    (blocks : List UnavailableBlock) (now : Nat)
    (h : dayIndex date < dayIndex now) :
    generateTimetable date tasks blocks now = [] := by
  simp only [generateTimetable]
  rw [if_pos h]

/-- Witness for C6: yesterday's date yields an empty timetable. -/
theorem generateTimetable_past_date_empty_witness :
    generateTimetable 0 [] [] 1440 = [] :=
  generateTimetable_past_date_empty 0 [] [] 1440 (by decide)

/-! ## C9: output sorted by start time -/

/-- C9: the sequence returned by `generateTimetable` is always sorted in
non-decreasing order of block start time (the engine sorts the final result). -/
theorem generateTimetable_sorted_by_startTime (date : Nat) (tasks : List Task)
    (blocks : List UnavailableBlock) (now : Nat) :
    (generateTimetable date tasks blocks now).Pairwise
      fun a b => a.startTime ≤ b.startTime := by
  simp only [generateTimetable]
  split
  · exact List.Pairwise.nil
  · exact pairwise_sort_le_startTime _

end Sched

namespace Sched

/-! ## C3: prioritizer scoring -/

/-- A 200-minute high-priority work task with a far deadline: the source deducts
both length penalties (10 + 15 = 25), the claimed scoring only 15. -/
def c3TaskLong : Task :=
  { id := "x", name := "X", duration := 200, deadline := 20000,
    priority := .high, type := .work, completed := false }

/-- A 60-minute medium-priority work task with the same far deadline. -/
def c3TaskShort : Task :=
  { id := "y", name := "Y", duration := 60, deadline := 20000,
    priority := .medium, type := .work, completed := false }

/-- C3 counterexample: the claimed (non-cumulative) length penalty gives the
200-minute task the score 55 — tying the 60-minute task and keeping input order —
but the source deducts both penalties (score 45), so the actual Prioritizer
orders the two tasks differently from the claimed one. -/
theorem prioritizeTasks_claim_false :
    getScore 0 c3TaskLong = 45 ∧ claimedScore 0 c3TaskLong = 55
    ∧ getScore 0 c3TaskShort = 55 ∧ claimedScore 0 c3TaskShort = 55
    ∧ claimedPrioritize [c3TaskLong, c3TaskShort] 0 = [c3TaskLong, c3TaskShort]
    ∧ prioritizeTasks [c3TaskLong, c3TaskShort] 0 0 = [c3TaskShort, c3TaskLong]
    ∧ prioritizeTasks [c3TaskLong, c3TaskShort] 0 0
        ≠ claimedPrioritize [c3TaskLong, c3TaskShort] 0 := by
  decide

/-- C3 amended: the Prioritizer is a stable descending sort on
`score = deadlineUrgency + priorityWeight + categoryWeight - lengthPenalty`
where the length penalty is cumulative — 10 points when duration > 120 plus a
further 15 points when duration > 180 (so a task longer than 180 minutes loses
exactly 25 points relative to a short task): the output is a permutation of the
input, pairwise in non-increasing score order, and any two tasks of equal score
keep their relative input order. -/
theorem prioritizeTasks_stable_descending (tasks : List Task) (targetDate now : Nat) :
    (prioritizeTasks tasks targetDate now).Perm tasks
    ∧ (prioritizeTasks tasks targetDate now).Pairwise
        (fun a b => getScore now b ≤ getScore now a)
    ∧ (∀ a b : Task, [a, b].Sublist tasks → getScore now a = getScore now b →
        [a, b].Sublist (prioritizeTasks tasks targetDate now))
    ∧ (∀ t : Task, 180 < t.duration →
        getScore now t = getScore now { t with duration := 60 } - 25) := by
  haveI : IsTotal Task fun a b => getScore now b ≤ getScore now a :=
    ⟨fun a b => Int.le_total (getScore now b) (getScore now a)⟩
  haveI : IsTrans Task fun a b => getScore now b ≤ getScore now a :=
    ⟨fun _ _ _ hab hbc => Int.le_trans hbc hab⟩
  refine ⟨List.perm_insertionSort _ tasks, ?_, ?_, ?_⟩
  · exact List.sorted_insertionSort _ tasks
  · intro a b hsub heq
    exact List.pair_sublist_insertionSort (le_of_eq heq.symm) hsub
  · intro t ht
    simp only [getScore]
    have h120 : 120 < t.duration := by omega
    rw [if_pos h120, if_pos ht, if_neg (by omega : ¬ (120 < (60:Nat))),
      if_neg (by omega : ¬ (180 < (60:Nat)))]
    omega

/-- Witness for C3's amended theorem at a concrete input: the stability clause
on a tied pair and the 25-point penalty on the 200-minute task. -/
theorem prioritizeTasks_stable_descending_witness :
    (prioritizeTasks [c3TaskLong, c3TaskShort] 0 0).Perm [c3TaskLong, c3TaskShort]
    ∧ getScore 0 c3TaskLong = getScore 0 { c3TaskLong with duration := 60 } - 25 :=
  ⟨(prioritizeTasks_stable_descending [c3TaskLong, c3TaskShort] 0 0).1,
   (prioritizeTasks_stable_descending [c3TaskLong, c3TaskShort] 0 0).2.2.2
     c3TaskLong (by decide)⟩

end Sched

namespace Sched

/-! ## Properties of the slot allocator -/

/-- Any slot returned by a successful attempt has length exactly `duration` and —
thanks to the re-verification loop — overlaps no block of the timetable. -/
theorem attemptRun_spec (slots : List Slot) (req duration dayEnd : Nat)
    (timetable : List TimeBlock) (lastEnd : Option Nat) (cw : Nat) (i s e : Nat)
    (h : attemptRun slots req duration dayEnd timetable lastEnd cw i = some (s, e)) :
    e = s + duration
      ∧ ∀ b ∈ timetable, slotsOverlap s e b.startTime b.endTime = false := by
  simp only [attemptRun] at h
  split at h
  · split at h
    · cases h
    · split at h
      · cases h
      · split at h
        · cases h
        · split at h
          · cases h
          · rename_i hconf _
            rw [Option.some.injEq, Prod.mk.injEq] at h
            obtain ⟨rfl, rfl⟩ := h
            refine ⟨rfl, fun b hb => ?_⟩
            by_contra hov
            exact hconf (List.any_eq_true.mpr ⟨b, hb, by simpa using hov⟩)
  · cases h

/-- The scan only ever returns a slot satisfying the attempt spec. -/
theorem tryRuns_spec (slots : List Slot) (req duration dayEnd : Nat)
    (timetable : List TimeBlock) (lastEnd : Option Nat) (cw : Nat) :
    ∀ (cand : List Nat) (s e : Nat),
      tryRuns slots req duration dayEnd timetable lastEnd cw cand = some (s, e) →
      e = s + duration
        ∧ ∀ b ∈ timetable, slotsOverlap s e b.startTime b.endTime = false := by
  intro cand
  induction cand with
  | nil =>
    intro s e h
    simp [tryRuns] at h
  | cons i rest ih =>
    intro s e h
    simp only [tryRuns] at h
    split at h
    case h_1 r hr =>
      rw [Option.some.injEq] at h
      subst h
      exact attemptRun_spec _ _ _ _ _ _ _ _ _ _ hr
    case h_2 hr =>
      exact ih _ _ h

/-- `findAvailableSlot` spec: a returned slot has the task's exact duration and
overlaps no existing block. -/
theorem findAvailableSlot_spec (timetable : List TimeBlock) (duration date now : Nat)
    (lastEnd : Option Nat) (cw : Nat) (s e : Nat)
    (h : findAvailableSlot timetable duration date now lastEnd cw = some (s, e)) :
    e = s + duration
      ∧ ∀ b ∈ timetable, slotsOverlap s e b.startTime b.endTime = false := by
  simp only [findAvailableSlot] at h
  split at h
  · exact absurd h (by simp)
  · exact tryRuns_spec _ _ _ _ _ _ _ _ _ _ h

/-- Every element of a `placeTasksGo` result is either an original timetable
element or a task block of the placed shape (end = start + duration, snapshot
`scheduledTime` = start) built from one of the tasks being placed. -/
theorem mem_placeTasksGo (date now : Nat) (ts : List Task) :
    ∀ (tt : List TimeBlock) (lastEnd : Option Nat) (cw : Nat) (tb : TimeBlock),
      tb ∈ placeTasksGo date now tt ts lastEnd cw →
      tb ∈ tt ∨ ∃ t, t ∈ ts ∧ ∃ s, tb = mkTaskBlock t s (s + t.duration) date := by
  induction ts with
  | nil =>
    intro tt lastEnd cw tb h
    exact Or.inl h
  | cons task rest ih =>
    intro tt lastEnd cw tb h
    simp only [placeTasksGo] at h
    split at h
    · rcases ih _ _ _ _ h with h' | ⟨t, ht, s, hts⟩
      · exact Or.inl h'
      · exact Or.inr ⟨t, List.mem_cons_of_mem task ht, s, hts⟩
    · rename_i s e hfs
      rcases ih _ _ _ _ h with h' | ⟨t, ht, s', hts⟩
      · rcases List.mem_append.mp h' with h'' | h''
        · exact Or.inl h''
        · right
          refine ⟨task, List.mem_cons_self task rest, s, ?_⟩
          rw [List.mem_singleton.mp h'']
          rw [(findAvailableSlot_spec _ _ _ _ _ _ _ _ hfs).1]
      · exact Or.inr ⟨t, List.mem_cons_of_mem task ht, s', hts⟩

/-- Original timetable entries survive placement. -/
theorem subset_placeTasksGo (date now : Nat) (ts : List Task) :
    ∀ (tt : List TimeBlock) (lastEnd : Option Nat) (cw : Nat),
      tt ⊆ placeTasksGo date now tt ts lastEnd cw := by
  induction ts with
  | nil =>
    intro tt lastEnd cw
    exact List.Subset.refl tt
  | cons task rest ih =>
    intro tt lastEnd cw
    simp only [placeTasksGo]
    split
    · exact ih _ _ _
    · exact List.Subset.trans (List.subset_append_left _ _) (ih _ _ _)

/-- Placement preserves the pairwise no-overlap invariant. -/
theorem placeTasksGo_pairwise (date now : Nat) (ts : List Task) :
    ∀ (tt : List TimeBlock) (lastEnd : Option Nat) (cw : Nat),
      tt.Pairwise (fun a b => ¬ blockOverlaps a b) →
      (placeTasksGo date now tt ts lastEnd cw).Pairwise
        fun a b => ¬ blockOverlaps a b := by
  induction ts with
  | nil =>
    intro tt lastEnd cw h
    exact h
  | cons task rest ih =>
    intro tt lastEnd cw h
    simp only [placeTasksGo]
    split
    · exact ih _ _ _ h
    · rename_i s e hfs
      apply ih
      rw [List.pairwise_append]
      refine ⟨h, List.pairwise_singleton _ _, fun a ha b hb => ?_⟩
      rw [List.mem_singleton] at hb
      subst hb
      have hno := (findAvailableSlot_spec _ _ _ _ _ _ _ _ hfs).2 a ha
      simp only [slotsOverlap, Bool.and_eq_false_iff, decide_eq_false_iff_not,
        not_lt, gt_iff_lt] at hno
      intro hov
      obtain ⟨h1, h2⟩ := hov
      simp only [mkTaskBlock] at h1 h2
      omega

/-! ## Block types produced by each stage -/

theorem unavailableBlocksFor_type {blocks : List UnavailableBlock} {date : Nat}
    {tb : TimeBlock} (h : tb ∈ unavailableBlocksFor blocks date) :
    tb.type = BlockType.unavailable := by
  simp only [unavailableBlocksFor, List.mem_filterMap] at h
  obtain ⟨b, _, hb⟩ := h
  split at hb
  · cases hb
    rfl
  · cases hb

theorem existingScheduledBlocks_shape {tasks : List Task} {date now : Nat}
    {tb : TimeBlock} (h : tb ∈ existingScheduledBlocks tasks date now) :
    ∃ t, t ∈ tasks ∧ ∃ s, t.scheduledTime = some s ∧ t.completed = false
      ∧ tb = mkScheduledTimeBlock t s date := by
  simp only [existingScheduledBlocks, List.mem_filterMap] at h
  obtain ⟨t, htmem, ht⟩ := h
  split at ht
  · cases ht
  · rename_i hcomp
    split at ht
    · cases ht
    · rename_i s hsched
      split at ht
      · split at ht
        · cases ht
        · cases ht
          exact ⟨t, htmem, s, hsched, by simpa using hcomp, rfl⟩
      · cases ht

/-- Membership in a conditional singleton prepended to a list. -/
theorem mem_ite_singleton_append {α : Type} {c : Prop} [Decidable c]
    {x a : α} {l : List α} (h : a ∈ (if c then [x] else []) ++ l) :
    a = x ∨ a ∈ l := by
  rw [List.mem_append] at h
  rcases h with h | h
  · split at h
    · exact Or.inl (List.mem_singleton.mp h)
    · cases h
  · exact Or.inr h

/-- Every break produced by the break loop is a break-typed block. -/
theorem breaksLoop_type :
    ∀ (l : List TimeBlock) (cw : Nat) (tb : TimeBlock),
      tb ∈ breaksLoop l cw → tb.type = BlockType.brk
  | [], _, _, h => by simp [breaksLoop] at h
  | [_], _, _, h => by simp [breaksLoop] at h
  | a :: b :: rest, cw, tb, h => by
    simp only [breaksLoop] at h
    rcases mem_ite_singleton_append h with rfl | h
    · rfl
    · exact breaksLoop_type (b :: rest) _ tb h

end Sched

namespace Sched

/-! ## Where output blocks come from -/

/-- Every block of a generated timetable is a materialized unavailable block, a
kept pre-scheduled task block, a freshly placed task block, or a break. -/
theorem mem_generateTimetable (date : Nat) (tasks : List Task)
    (blocks : List UnavailableBlock) (now : Nat) (tb : TimeBlock)
    (h : tb ∈ generateTimetable date tasks blocks now) :
    tb ∈ unavailableBlocksFor blocks (startOfDay date)
      ∨ tb ∈ existingScheduledBlocks tasks (startOfDay date) now
      ∨ (∃ t, t ∈ tasks ∧ ∃ s, tb = mkTaskBlock t s (s + t.duration) (startOfDay date))
      ∨ tb.type = BlockType.brk := by
  simp only [generateTimetable, placeTasks] at h
  split at h
  · cases h
  · rw [List.mem_insertionSort] at h
    have h2 := List.mem_of_mem_filter h
    simp only [insertIntelligentBreaks] at h2
    rcases List.mem_append.mp h2 with h3 | h3
    · rcases mem_placeTasksGo _ _ _ _ _ _ _ h3 with h4 | ⟨t, ht, s, hts⟩
      · rcases List.mem_append.mp h4 with h5 | h5
        · exact Or.inl h5
        · exact Or.inr (Or.inl h5)
      · refine Or.inr (Or.inr (Or.inl ⟨t, ?_, s, hts⟩))
        simp only [prioritizeTasks, List.mem_insertionSort] at ht
        exact List.mem_of_mem_filter ht
    · exact Or.inr (Or.inr (Or.inr (breaksLoop_type _ _ _ h3)))

/-! ## C10: shape of task blocks -/

/-- C10: every task-typed block of a generated timetable carries a task
snapshot, its end time is its start time plus the snapshot's duration in
minutes, and the snapshot's `scheduledTime` equals the block's start time. -/
theorem generateTimetable_task_block_shape (date : Nat) (tasks : List Task)
    (blocks : List UnavailableBlock) (now : Nat) (tb : TimeBlock)
    (hmem : tb ∈ generateTimetable date tasks blocks now)
    (htype : tb.type = BlockType.task) :
    ∃ t, tb.task = some t ∧ tb.endTime = tb.startTime + t.duration
      ∧ t.scheduledTime = some tb.startTime := by
  rcases mem_generateTimetable date tasks blocks now tb hmem with h | h | h | h
  · rw [unavailableBlocksFor_type h] at htype
    exact BlockType.noConfusion htype
  · obtain ⟨t, -, s, hsched, _, rfl⟩ := existingScheduledBlocks_shape h
    exact ⟨t, rfl, rfl, hsched⟩
  · obtain ⟨t, -, s, rfl⟩ := h
    exact ⟨{ t with scheduledTime := some s }, rfl, rfl, rfl⟩
  · rw [h] at htype
    exact BlockType.noConfusion htype

/-- A single overdue unscheduled 60-minute task, used for the C10 witness. -/
def c10Task : Task :=
  { id := "w", name := "W", duration := 60, deadline := 14000,
    priority := .low, type := .work, completed := false }

/-- The task block that `generateTimetable` produces for `c10Task` on day 10
at 06:00. -/
def c10Block : TimeBlock :=
  { id := "task-w-10", type := .task, taskId := some "w",
    task := some { c10Task with scheduledTime := some 14760 },
    startTime := 14760, endTime := 14820, title := "W",
    description := some "work • low priority • 60m" }

/-- Witness for C10 at a concrete generated timetable. -/
theorem generateTimetable_task_block_shape_witness :
    ∃ t, c10Block.task = some t ∧ c10Block.endTime = c10Block.startTime + t.duration
      ∧ t.scheduledTime = some c10Block.startTime :=
  generateTimetable_task_block_shape 14760 [c10Task] [] 14760 c10Block
    (by decide) (by decide)

end Sched

namespace Sched

/-! ## C1: no-overlap invariant -/

instance : DecidableRel fun a b : TimeBlock => ¬ blockOverlaps a b :=
  fun _ _ => inferInstance

/-- The excluded pair class of the amended C1: a break block against an
unavailable block, in either order. -/
def breakUnavailablePair (a b : TimeBlock) : Prop :=
  (a.type = BlockType.brk ∧ b.type = BlockType.unavailable)
  ∨ (a.type = BlockType.unavailable ∧ b.type = BlockType.brk)

instance (a b : TimeBlock) : Decidable (breakUnavailablePair a b) :=
  inferInstanceAs (Decidable (Or _ _))

/-- An unavailable block definition covering 07:00–21:00 of day 10. -/
def c1BlockBusy : UnavailableBlock :=
  { id := "u1", title := "Busy", startTime := 14820, endTime := 15660 }

def c1TaskA : Task :=
  { id := "a", name := "A", duration := 60, deadline := 15000,
    priority := .low, type := .work, completed := false }

def c1TaskB : Task :=
  { id := "b", name := "B", duration := 60, deadline := 15000,
    priority := .low, type := .work, completed := false }

/-- C1 counterexample: generating day 10 (from day 9) with one unavailable
block 07:00–21:00 and two 60-minute tasks places the tasks at 06:00 and 21:00
and then inserts a short break 07:00–07:15 that overlaps the unavailable block —
even though the fixed blocks materialized from the input are pairwise
non-overlapping.  The claimed invariant over all pairs of distinct output
blocks is therefore false. -/
theorem generateTimetable_overlap_counterexample :
    (fixedBlocks 14400 [c1TaskA, c1TaskB] [c1BlockBusy] 13680).Pairwise
        (fun a b => ¬ blockOverlaps a b)
    ∧ ∃ a ∈ generateTimetable 14400 [c1TaskA, c1TaskB] [c1BlockBusy] 13680,
        ∃ b ∈ generateTimetable 14400 [c1TaskA, c1TaskB] [c1BlockBusy] 13680,
          a ≠ b ∧ blockOverlaps a b ∧ a.type = BlockType.brk
            ∧ b.type = BlockType.unavailable := by
  decide

/-- Membership in a conditional singleton prepended to a list, keeping the
condition in the singleton case. -/
theorem mem_ite_singleton_append_cond {α : Type} {c : Prop} [Decidable c]
    {x a : α} {l : List α} (h : a ∈ (if c then [x] else []) ++ l) :
    (c ∧ a = x) ∨ a ∈ l := by
  rw [List.mem_append] at h
  rcases h with h | h
  · split at h
    case isTrue hc => exact Or.inl ⟨hc, List.mem_singleton.mp h⟩
    case isFalse => cases h
  · exact Or.inr h

/-- Membership in a conditional singleton, keeping the condition. -/
theorem mem_ite_singleton_cond {α : Type} {c : Prop} [Decidable c]
    {x a : α} (h : a ∈ (if c then [x] else [])) : c ∧ a = x := by
  split at h
  case isTrue hc => exact ⟨hc, List.mem_singleton.mp h⟩
  case isFalse => cases h

/-- A conditional singleton is pairwise for any relation. -/
theorem pairwise_ite_singleton {α : Type} {c : Prop} [Decidable c]
    {x : α} {R : α → α → Prop} : (if c then [x] else []).Pairwise R := by
  split
  · exact List.pairwise_singleton _ _
  · exact List.Pairwise.nil

/-- Break blocks are carved out of the gaps of a chain of task blocks: when
the start-sorted task blocks form a chain (each one ends no later than the
next starts), every break inserted by the loop is disjoint from every task
block of the chain, starts no earlier than the head's end, and the breaks are
pairwise disjoint. -/
theorem breaksLoop_disjoint :
    ∀ (L : List TimeBlock) (cw : Nat),
      L.Pairwise (fun a b => a.endTime ≤ b.startTime) →
      (∀ x ∈ L, x.startTime ≤ x.endTime) →
      (∀ br ∈ breaksLoop L cw,
        (∀ x ∈ L, ¬ blockOverlaps br x ∧ ¬ blockOverlaps x br)
        ∧ ∀ h0, L.head? = some h0 → h0.endTime ≤ br.startTime)
      ∧ (breaksLoop L cw).Pairwise fun a b => ¬ blockOverlaps a b
  | [], cw, _, _ => by
    refine ⟨fun br hbr => ?_, ?_⟩
    · simp [breaksLoop] at hbr
    · simp [breaksLoop]
  | [x], cw, _, _ => by
    refine ⟨fun br hbr => ?_, ?_⟩
    · simp [breaksLoop] at hbr
    · simp [breaksLoop]
  | a :: b :: rest, cw, hchain, hwf => by
    obtain ⟨hab, hchain2⟩ := List.pairwise_cons.mp hchain
    have hwf2 : ∀ x ∈ b :: rest, x.startTime ≤ x.endTime :=
      fun x hx => hwf x (List.mem_cons_of_mem a hx)
    have hbwf : b.startTime ≤ b.endTime := hwf2 b (List.mem_cons_self b rest)
    have haeb : a.endTime ≤ b.startTime := hab b (List.mem_cons_self b rest)
    have hax : ∀ x ∈ b :: rest, b.startTime ≤ x.startTime := by
      intro x hx
      rcases List.mem_cons.mp hx with rfl | hx2
      · exact Nat.le_refl _
      · exact Nat.le_trans hbwf ((List.pairwise_cons.mp hchain2).1 x hx2)
    have IH := fun cwX => breaksLoop_disjoint (b :: rest) cwX hchain2 hwf2
    simp only [breaksLoop]
    constructor
    · intro br hbr
      rcases mem_ite_singleton_append_cond hbr with ⟨hc, rfl⟩ | hbr2
      · rw [Bool.and_eq_true] at hc
        have hble := of_decide_eq_true hc.2
        refine ⟨?_, fun h0 hh0 => ?_⟩
        · intro x hx
          rcases List.mem_cons.mp hx with rfl | hx2
          · constructor
            · rintro ⟨h1, h2⟩
              simp only [mkBreakBlock] at h1 h2
              omega
            · rintro ⟨h1, h2⟩
              simp only [mkBreakBlock] at h1 h2
              omega
          · have hbx := hax x hx2
            constructor
            · rintro ⟨h1, h2⟩
              simp only [mkBreakBlock] at h1 h2
              omega
            · rintro ⟨h1, h2⟩
              simp only [mkBreakBlock] at h1 h2
              omega
        · rw [List.head?_cons, Option.some.injEq] at hh0
          subst hh0
          simp only [mkBreakBlock]
          exact Nat.le_refl _
      · have hIH := (IH _).1 br hbr2
        have hstart : b.endTime ≤ br.startTime :=
          hIH.2 b (by rw [List.head?_cons])
        refine ⟨?_, fun h0 hh0 => ?_⟩
        · intro x hx
          rcases List.mem_cons.mp hx with rfl | hx2
          · constructor
            · rintro ⟨h1, h2⟩
              omega
            · rintro ⟨h1, h2⟩
              omega
          · exact hIH.1 x hx2
        · rw [List.head?_cons, Option.some.injEq] at hh0
          subst hh0
          omega
    · rw [List.pairwise_append]
      refine ⟨pairwise_ite_singleton, (IH _).2, ?_⟩
      intro p hp q hq
      obtain ⟨hc, rfl⟩ := mem_ite_singleton_cond hp
      rw [Bool.and_eq_true] at hc
      have hble := of_decide_eq_true hc.2
      have hqstart : b.endTime ≤ q.startTime :=
        ((IH _).1 q hq).2 b (by rw [List.head?_cons])
      rintro ⟨h1, h2⟩
      simp only [mkBreakBlock] at h1 h2
      omega

/-- Core of the amended C1 for `generateTimetable`: with pairwise
non-overlapping fixed blocks and positive task durations, every pair of output
blocks other than a break against an unavailable block is non-overlapping. -/
theorem generateTimetable_pairwise_except (date : Nat) (tasks : List Task)
    (blocks : List UnavailableBlock) (now : Nat)
    (hfix : (fixedBlocks date tasks blocks now).Pairwise
      fun a b => ¬ blockOverlaps a b)
    (hdur : ∀ t ∈ tasks, 0 < t.duration) :
    (generateTimetable date tasks blocks now).Pairwise
      fun a b => ¬ breakUnavailablePair a b → ¬ blockOverlaps a b := by
  have hsymmR : ∀ {x y : TimeBlock},
      (¬ breakUnavailablePair x y → ¬ blockOverlaps x y) →
      ¬ breakUnavailablePair y x → ¬ blockOverlaps y x := by
    intro x y hxy hny hov
    refine hxy (fun hp => hny ?_) (blockOverlaps_symm hov)
    rcases hp with ⟨h1, h2⟩ | ⟨h1, h2⟩
    · exact Or.inr ⟨h2, h1⟩
    · exact Or.inl ⟨h2, h1⟩
  simp only [generateTimetable, placeTasks]
  split
  · exact List.Pairwise.nil
  · set P := placeTasksGo (startOfDay date) now
      (unavailableBlocksFor blocks (startOfDay date)
        ++ existingScheduledBlocks tasks (startOfDay date) now)
      (prioritizeTasks (getTasksForRescheduling tasks (startOfDay date) now)
        (startOfDay date) now) none 0 with hPdef
    have hPpw : P.Pairwise fun a b => ¬ blockOverlaps a b := by
      rw [hPdef]
      exact placeTasksGo_pairwise _ _ _ _ _ _ (by simpa [fixedBlocks] using hfix)
    have hPcases : ∀ tb ∈ P, tb.type = BlockType.unavailable
        ∨ (tb.type = BlockType.task ∧ tb.startTime < tb.endTime) := by
      intro tb htb
      rw [hPdef] at htb
      rcases mem_placeTasksGo _ _ _ _ _ _ _ htb with h4 | ⟨t, ht, s, rfl⟩
      · rcases List.mem_append.mp h4 with h5 | h5
        · exact Or.inl (unavailableBlocksFor_type h5)
        · obtain ⟨t, htm, s, _, _, rfl⟩ := existingScheduledBlocks_shape h5
          refine Or.inr ⟨rfl, ?_⟩
          have := hdur t htm
          simp only [mkScheduledTimeBlock]
          omega
      · have htm : t ∈ tasks := by
          simp only [prioritizeTasks, List.mem_insertionSort] at ht
          exact List.mem_of_mem_filter ht
        refine Or.inr ⟨rfl, ?_⟩
        have := hdur t htm
        simp only [mkTaskBlock]
        omega
    set L := List.insertionSort (fun x y => x.startTime ≤ y.startTime)
      (P.filter fun blk => blk.type == BlockType.task) with hLdef
    have hLmem : ∀ x, x ∈ L ↔ x ∈ P ∧ x.type = BlockType.task := by
      intro x
      rw [hLdef, List.mem_insertionSort, List.mem_filter]
      simp
    have hLsorted : L.Pairwise fun a b => a.startTime ≤ b.startTime := by
      rw [hLdef]
      exact pairwise_sort_le_startTime _
    have hLpw : L.Pairwise fun a b => ¬ blockOverlaps a b := by
      rw [hLdef]
      have h1 := List.Pairwise.sublist
        (@List.filter_sublist _ (fun blk => blk.type == BlockType.task) P) hPpw
      exact h1.perm (List.perm_insertionSort _ _).symm
        fun h hov => h (blockOverlaps_symm hov)
    have hLpos : ∀ x ∈ L, x.startTime < x.endTime := by
      intro x hx
      obtain ⟨hxP, hxt⟩ := (hLmem x).mp hx
      rcases hPcases x hxP with h | h
      · rw [h] at hxt
        exact BlockType.noConfusion hxt
      · exact h.2
    have hchain : L.Pairwise fun a b => a.endTime ≤ b.startTime := by
      refine (hLsorted.and hLpw).imp_of_mem ?_
      intro x y _ hy hxy
      obtain ⟨hle, hno⟩ := hxy
      simp only [blockOverlaps, not_and] at hno
      have := hLpos y hy
      omega
    obtain ⟨hBmem, hBpw⟩ := breaksLoop_disjoint L 0 hchain
      fun x hx => Nat.le_of_lt (hLpos x hx)
    have happ : (P ++ breaksLoop L 0).Pairwise
        fun a b => ¬ breakUnavailablePair a b → ¬ blockOverlaps a b := by
      rw [List.pairwise_append]
      refine ⟨hPpw.imp fun {x y} h => fun (hn : ¬ breakUnavailablePair x y) => h,
        hBpw.imp fun {x y} h => fun (hn : ¬ breakUnavailablePair x y) => h, ?_⟩
      intro p hp br hbr hnp
      rcases hPcases p hp with htype | ⟨htype, _⟩
      · exact absurd (Or.inr ⟨htype, breaksLoop_type _ _ _ hbr⟩) hnp
      · exact ((hBmem br hbr).1 p ((hLmem p).mpr ⟨hp, htype⟩)).2
    have h4 : (insertIntelligentBreaks P).Pairwise
        fun a b => ¬ breakUnavailablePair a b → ¬ blockOverlaps a b := by
      simp only [insertIntelligentBreaks]
      rw [← hLdef]
      exact happ
    have h3 := List.Pairwise.sublist (@List.filter_sublist _ keepBlock _) h4
    exact h3.perm (List.perm_insertionSort _ _).symm hsymmR

/-- `rescheduleTask` preserves pairwise non-overlap: the move is applied only
after the conflict scan has verified the new interval against every other
block. -/
theorem rescheduleTask_pairwise (taskId : String) (newStart : Nat)
    (tt : List TimeBlock)
    (h : tt.Pairwise fun a b => ¬ blockOverlaps a b) :
    (rescheduleTask taskId newStart tt).Pairwise
      fun a b => ¬ blockOverlaps a b := by
  simp only [rescheduleTask]
  split
  · exact h
  next i hfind =>
    split
    · exact h
    next blk hget =>
      split
      · exact h
      next task htask =>
        split
        · exact h
        next hconf =>
          have hno : ∀ j, j ≠ i → ∀ hj : j < tt.length,
              slotsOverlap newStart (newStart + task.duration)
                tt[j].startTime tt[j].endTime = false := by
            intro j hji hj
            rw [Bool.not_eq_true, List.any_eq_false] at hconf
            have hmem : ((j, tt[j]) : Nat × TimeBlock) ∈ tt.enum :=
              List.mem_enum_iff_getElem?.mpr (by
                rw [List.getElem?_eq_some_iff]
                exact ⟨hj, rfl⟩)
            have hcj := hconf (j, tt[j]) hmem
            simp only [Bool.and_eq_true, decide_eq_true_eq, not_and] at hcj
            simpa using hcj hji
          rw [List.pairwise_iff_getElem]
          intro p q hp hq hpq
          have hp2 : p < tt.length := by simpa using hp
          have hq2 : q < tt.length := by simpa using hq
          rw [List.getElem_set, List.getElem_set]
          by_cases hpi : i = p
          · have hqi : ¬ i = q := by omega
            rw [if_pos hpi, if_neg hqi]
            have hsq := hno q (fun hh => hqi hh.symm) hq2
            simp only [slotsOverlap, Bool.and_eq_false_iff,
              decide_eq_false_iff_not] at hsq
            show ¬ (newStart < tt[q].endTime
              ∧ newStart + task.duration > tt[q].startTime)
            rintro ⟨h1, h2⟩
            omega
          · by_cases hqi : i = q
            · rw [if_neg hpi, if_pos hqi]
              have hsp := hno p (fun hh => hpi hh.symm) hp2
              simp only [slotsOverlap, Bool.and_eq_false_iff,
                decide_eq_false_iff_not] at hsp
              show ¬ (tt[p].startTime < newStart + task.duration
                ∧ tt[p].endTime > newStart)
              rintro ⟨h1, h2⟩
              omega
            · rw [if_neg hpi, if_neg hqi]
              exact List.pairwise_iff_getElem.mp h p q hp2 hq2 hpq

/-- C1 amended: (i) for every output of `generateTimetable` — provided the
fixed blocks materialized from the inputs are pairwise non-overlapping (the
spec leaves overlap resolution among fixed blocks to the caller's data) and
task durations are positive (data-model invariant) — every pair of distinct
blocks satisfies the no-overlap test, **except** pairs consisting of a break
block and an unavailable block, which the counterexample shows can overlap;
and (ii) every output of `rescheduleTask` on a pairwise non-overlapping
timetable is again pairwise non-overlapping, for all pairs without
exception. -/
theorem timetable_no_overlap_except_break_unavailable :
    (∀ (date : Nat) (tasks : List Task) (blocks : List UnavailableBlock)
        (now : Nat),
      (fixedBlocks date tasks blocks now).Pairwise
        (fun a b => ¬ blockOverlaps a b) →
      (∀ t ∈ tasks, 0 < t.duration) →
      (generateTimetable date tasks blocks now).Pairwise
        fun a b => ¬ breakUnavailablePair a b → ¬ blockOverlaps a b)
    ∧ ∀ (taskId : String) (newStart : Nat) (tt : List TimeBlock),
        tt.Pairwise (fun a b => ¬ blockOverlaps a b) →
        (rescheduleTask taskId newStart tt).Pairwise
          fun a b => ¬ blockOverlaps a b :=
  ⟨generateTimetable_pairwise_except, rescheduleTask_pairwise⟩

end Sched

namespace Sched

/-! ## C7: working-window bounds and the midnight-rollover defect -/

/-- A 15-minute task due later on day 20, used to exhibit the rollover defect. -/
def c7Task : Task :=
  { id := "t7", name := "T7", duration := 15, deadline := 29400,
    priority := .low, type := .work, completed := false }

/-- C7 failing input, evaluated: for target date day 20 (minute 28800) with
`now` = 23:50 of that same day (minute 30230), `now + 15` falls on the next
day, its hour/minute are re-applied to the *target* date by the `setHours`
rollover, and the working window restarts at 00:15 of day 20 — so the task is
placed at 00:15, strictly before 06:00 of the target date and strictly before
`now`, violating the claimed window bound. -/
theorem findAvailableSlot_midnight_rollover_bug :
    sameDay 28800 30230 = true
    ∧ (startOfDay 28800 + 6 * 60 < 30230)
    ∧ (generateTimetable 28800 [c7Task] [] 30230).map TimeBlock.startTime = [28815]
    ∧ (∃ tb ∈ generateTimetable 28800 [c7Task] [] 30230,
        tb.type = BlockType.task ∧ tb.startTime < startOfDay 28800 + 6 * 60
          ∧ tb.startTime < 30230) := by
  decide

/-! ## C4: rescheduleTask -/

/-- C4: `rescheduleTask` on a provided timetable.  When no block carries the
task id, the timetable is returned unchanged.  When the first matching block is
found at index `i` and carries a task snapshot: if the moved interval
`[newStart, newStart + duration)` overlaps any block at another index, the
timetable is returned unchanged; otherwise the result is the timetable with
exactly the block at `i` replaced — its interval moved and its carried
snapshot's `scheduledTime` set to the new start — and every other block
untouched. -/
theorem rescheduleTask_correct (taskId : String) (newStart : Nat)
    (tt : List TimeBlock) :
    ((∀ b ∈ tt, b.taskId ≠ some taskId) → rescheduleTask taskId newStart tt = tt)
    ∧ ∀ i blk task,
        (tt.findIdx? fun b => b.taskId == some taskId) = some i →
        tt[i]? = some blk → blk.task = some task →
        (((∃ j b', tt[j]? = some b' ∧ j ≠ i ∧
            slotsOverlap newStart (newStart + task.duration)
              b'.startTime b'.endTime = true) →
          rescheduleTask taskId newStart tt = tt)
        ∧ ((∀ j b', tt[j]? = some b' → j ≠ i →
            slotsOverlap newStart (newStart + task.duration)
              b'.startTime b'.endTime = false) →
          rescheduleTask taskId newStart tt =
            tt.set i { blk with
              startTime := newStart
              endTime := newStart + task.duration
              task := some { task with scheduledTime := some newStart } })) := by
  constructor
  · intro hnone
    have hfind : (tt.findIdx? fun b => b.taskId == some taskId) = none := by
      rw [List.findIdx?_eq_none_iff]
      intro x hx
      simpa using hnone x hx
    simp [rescheduleTask, hfind]
  · intro i blk task hfind hget htask
    constructor
    · intro ⟨j, b', hj, hji, hov⟩
      have hany : (tt.enum.any fun p => decide (p.1 ≠ i)
          && slotsOverlap newStart (newStart + task.duration)
            p.2.startTime p.2.endTime) = true := by
        rw [List.any_eq_true]
        refine ⟨(j, b'), List.mem_enum_iff_getElem?.mpr hj, ?_⟩
        simp only [Bool.and_eq_true, decide_eq_true_eq]
        exact ⟨hji, hov⟩
      simp only [rescheduleTask, hfind, hget, htask]
      rw [hany, if_pos rfl]
    · intro hno
      have hany : (tt.enum.any fun p => decide (p.1 ≠ i)
          && slotsOverlap newStart (newStart + task.duration)
            p.2.startTime p.2.endTime) = false := by
        rw [List.any_eq_false]
        intro p hp
        have hgp := List.mem_enum_iff_getElem?.mp hp
        by_cases hpi : p.1 = i
        · simp [hpi]
        · have hf := hno p.1 p.2 hgp hpi
          intro hcontra
          simp only [Bool.and_eq_true, decide_eq_true_eq] at hcontra
          rw [hf] at hcontra
          exact Bool.false_ne_true hcontra.2
      simp only [rescheduleTask, hfind, hget, htask]
      rw [hany, if_neg Bool.false_ne_true]

/-- A timetable with one task block and one unavailable block, for the C4
witness. -/
def c4TaskBlock : TimeBlock :=
  { id := "tb1", type := .task, taskId := some "m",
    task := some { id := "m", name := "M", duration := 30, deadline := 2000,
                   priority := .low, type := .work, completed := false,
                   scheduledTime := some 600 },
    startTime := 600, endTime := 630, title := "M" }

def c4Unavail : TimeBlock :=
  { id := "tb2", type := .unavailable, startTime := 700, endTime := 760,
    title := "Busy", isFixed := true }

/-- Witness for C4: moving the task to 08:00 (minute 480) conflicts with
nothing, so exactly the first block is updated. -/
theorem rescheduleTask_correct_witness :
    rescheduleTask "m" 480 [c4TaskBlock, c4Unavail] =
      [{ c4TaskBlock with
          startTime := 480
          endTime := 510
          task := some { id := "m", name := "M", duration := 30, deadline := 2000,
                         priority := .low, type := .work, completed := false,
                         scheduledTime := some 480 } },
        c4Unavail] := by
  apply ((rescheduleTask_correct "m" 480 [c4TaskBlock, c4Unavail]).2 0 c4TaskBlock
    { id := "m", name := "M", duration := 30, deadline := 2000,
      priority := .low, type := .work, completed := false,
      scheduledTime := some 600 }
    (by decide) (by decide) (by decide)).2
  intro j b' hj hji
  have h2 : j < 2 := by simpa using (List.getElem?_eq_some_iff.mp hj).1
  have hj1 : j = 1 := by omega
  subst hj1
  rw [show ([c4TaskBlock, c4Unavail][1]? : Option TimeBlock) = some c4Unavail from rfl]
    at hj
  injection hj with hb
  subst hb
  decide

end Sched

namespace Sched

/-! ## C5: recurring exceptions round trip -/

/-- The id string of a materialized unavailable block determines the source
block's id (cancel the fixed prefix, separator and date suffix). -/
theorem unavailable_id_inj {x y k : String}
    (h : "unavailable-" ++ x ++ "-" ++ k = "unavailable-" ++ y ++ "-" ++ k) :
    x = y := by
  have hd := congrArg String.data h
  simp only [String.data_append] at hd
  have h1 := List.append_cancel_right hd
  have h2 := List.append_cancel_right h1
  have h3 := List.append_cancel_left h2
  exact String.ext h3

/-- With pairwise-distinct ids, a member sharing `b`'s id is `b` itself. -/
theorem eq_of_mem_same_id {blocks : List UnavailableBlock} {b b' : UnavailableBlock}
    (huniq : blocks.Pairwise fun x y => x.id ≠ y.id)
    (hb : b ∈ blocks) (hb' : b' ∈ blocks) (hid : b'.id = b.id) : b' = b := by
  obtain ⟨i, hi, hiv⟩ := List.mem_iff_getElem.mp hb
  obtain ⟨j, hj, hjv⟩ := List.mem_iff_getElem.mp hb'
  rcases Nat.lt_trichotomy i j with h | h | h
  · have hne := List.pairwise_iff_getElem.mp huniq i j hi hj h
    rw [hiv, hjv] at hne
    exact absurd hid.symm hne
  · subst h
    rw [← hiv, hjv]
  · have hne := List.pairwise_iff_getElem.mp huniq j i hj hi h
    rw [hiv, hjv] at hne
    exact absurd hid hne

/-- Structure of `addExceptionToRecurringBlock` on a list with unique ids: the
found block is `b` itself, and the result either is unchanged (date already
excepted) or has exactly `b` replaced by `b` with the date appended to its
exception list. -/
theorem addException_eq (blocks : List UnavailableBlock) (b : UnavailableBlock)
    (r : RecurringRule) (d : Nat)
    (hmem : b ∈ blocks) (hrec : b.recurring = some r)
    (huniq : blocks.Pairwise fun x y => x.id ≠ y.id) :
    ∃ i, blocks[i]? = some b ∧
      (addExceptionToRecurringBlock blocks b.id d).1
        = (if r.exceptions.contains (dayIndex d) then blocks
          else blocks.set i
            { b with recurring := some { r with exceptions := r.exceptions ++ [dayIndex d] } }) := by
  have hfind := List.findIdx?_eq_some_of_exists
    (p := fun x => x.id == b.id) ⟨b, hmem, by simp⟩
  set i := blocks.findIdx fun x => x.id == b.id with hidef
  obtain ⟨hlt, hp, -⟩ := List.findIdx?_eq_some_iff_getElem.mp hfind
  have hbi : blocks[i] = b := by
    apply eq_of_mem_same_id huniq hmem (List.getElem_mem hlt)
    simpa using hp
  have hget : blocks[i]? = some b := by
    rw [List.getElem?_eq_some_iff]
    exact ⟨hlt, hbi⟩
  refine ⟨i, hget, ?_⟩
  simp only [addExceptionToRecurringBlock, hfind, hget, hrec]
  split
  · rfl
  · rfl

/-- If every block of the input list carrying the given id fails
`shouldIncludeBlock` for the target date, then no block of the generated
timetable equals the unavailable block materialized from `b` on that date. -/
theorem not_mem_generateTimetable_of_excluded (date : Nat) (tasks : List Task)
    (blocks : List UnavailableBlock) (now : Nat) (b : UnavailableBlock)
    (hexc : ∀ b' ∈ blocks, b'.id = b.id →
      shouldIncludeBlock b' (startOfDay date) = false) :
    ∀ tb ∈ generateTimetable date tasks blocks now,
      tb ≠ mkUnavailableTimeBlock b (startOfDay date) := by
  intro tb hmem heq
  rcases mem_generateTimetable date tasks blocks now tb hmem with h | h | h | h
  · simp only [unavailableBlocksFor, List.mem_filterMap] at h
    obtain ⟨b', hb', hf⟩ := h
    split at hf
    case isTrue hinc =>
      rw [Option.some.injEq] at hf
      have hid : b'.id = b.id := by
        have hids : (mkUnavailableTimeBlock b' (startOfDay date)).id
            = (mkUnavailableTimeBlock b (startOfDay date)).id := by
          rw [hf, heq]
        exact unavailable_id_inj hids
      rw [hexc b' hb' hid] at hinc
      exact Bool.false_ne_true hinc
    case isFalse => exact Option.noConfusion hf
  · obtain ⟨t, -, s, _, _, rfl⟩ := existingScheduledBlocks_shape h
    have := congrArg TimeBlock.type heq
    exact BlockType.noConfusion this
  · obtain ⟨t, -, s, rfl⟩ := h
    have := congrArg TimeBlock.type heq
    exact BlockType.noConfusion this
  · rw [heq] at h
    exact BlockType.noConfusion h

/-- An applicable unavailable block definition always materializes into the
generated timetable (for a non-past target date). -/
theorem mem_generateTimetable_of_included (date : Nat) (tasks : List Task)
    (blocks : List UnavailableBlock) (now : Nat) (b : UnavailableBlock)
    (hb : b ∈ blocks) (hinc : shouldIncludeBlock b (startOfDay date) = true)
    (hguard : ¬ dayIndex date < dayIndex now) :
    mkUnavailableTimeBlock b (startOfDay date)
      ∈ generateTimetable date tasks blocks now := by
  simp only [generateTimetable, placeTasks]
  rw [if_neg hguard]
  rw [List.mem_insertionSort, List.mem_filter]
  constructor
  · simp only [insertIntelligentBreaks]
    apply List.mem_append_left
    apply subset_placeTasksGo
    apply List.mem_append_left
    simp only [unavailableBlocksFor, List.mem_filterMap]
    exact ⟨b, hb, by rw [if_pos hinc]⟩
  · rfl

/-- C5: for a daily recurring unavailable block `b` (with pairwise-distinct
block ids), after adding an exception for the calendar day of `d` via
`addExceptionToRecurringBlock`, regenerating the timetable for `d` contains no
block materialized from `b`, while regenerating for the next calendar day
(`d + minutesPerDay`) does contain `b`'s materialized block — provided `d` is
not in the past and the next day was not already excepted. -/
theorem addException_round_trip (tasks : List Task)
    (blocks : List UnavailableBlock) (b : UnavailableBlock) (r : RecurringRule)
    (d now : Nat)
    (hmem : b ∈ blocks) (hrec : b.recurring = some r)
    (hdaily : r.type = RecurringType.daily)
    (huniq : blocks.Pairwise fun x y => x.id ≠ y.id)
    (hfut : dayIndex now ≤ dayIndex d)
    (hnext : (dayIndex d + 1) ∉ r.exceptions) :
    (∀ tb ∈ generateTimetable d tasks
        (addExceptionToRecurringBlock blocks b.id d).1 now,
      tb ≠ mkUnavailableTimeBlock b (startOfDay d))
    ∧ mkUnavailableTimeBlock b (startOfDay (d + minutesPerDay))
        ∈ generateTimetable (d + minutesPerDay) tasks
            (addExceptionToRecurringBlock blocks b.id d).1 now := by
  obtain ⟨i, hgeti, heq2⟩ := addException_eq blocks b r d hmem hrec huniq
  obtain ⟨hlt, hbi⟩ := List.getElem?_eq_some_iff.mp hgeti
  have hday1 : dayIndex (d + minutesPerDay) = dayIndex d + 1 := by
    simp only [dayIndex]
    rw [Nat.add_div_right _ (by decide : 0 < minutesPerDay)]
  have hdayd : dayIndex (startOfDay d) = dayIndex d := dayIndex_startOfDay d
  have hdayd1 : dayIndex (startOfDay (d + minutesPerDay)) = dayIndex d + 1 := by
    rw [dayIndex_startOfDay, hday1]
  by_cases hc : r.exceptions.contains (dayIndex d)
  · rw [hc] at heq2
    simp only [if_true] at heq2
    rw [heq2]
    constructor
    · apply not_mem_generateTimetable_of_excluded
      intro b' hb' hid
      rw [eq_of_mem_same_id huniq hmem hb' hid]
      simp only [shouldIncludeBlock, hrec]
      rw [hdayd, if_pos (by simpa using hc)]
    · apply mem_generateTimetable_of_included _ _ _ _ _ hmem
      · simp only [shouldIncludeBlock, hrec]
        rw [hdayd1, if_neg (by simpa using hnext), hdaily]
      · omega
  · rw [if_neg hc] at heq2
    set b2 : UnavailableBlock :=
      { b with recurring := some { r with exceptions := r.exceptions ++ [dayIndex d] } } with hb2
    rw [heq2]
    have hmkeq : ∀ day : Nat,
        mkUnavailableTimeBlock b2 day = mkUnavailableTimeBlock b day := by
      intro day
      simp [mkUnavailableTimeBlock, hb2]
    constructor
    · apply not_mem_generateTimetable_of_excluded
      intro b' hb' hid
      obtain ⟨j, hj, hjv⟩ := List.mem_iff_getElem.mp hb'
      rw [List.length_set] at hj
      by_cases hji : j = i
      · subst hji
        rw [List.getElem_set_self] at hjv
        rw [← hjv]
        simp only [shouldIncludeBlock, hb2]
        rw [hdayd, if_pos (by simp)]
      · rw [List.getElem_set_ne (fun h => hji h.symm)] at hjv
        exfalso
        have : blocks[j] = b := by
          apply eq_of_mem_same_id huniq hmem (List.getElem_mem hj)
          rw [hjv]
          exact hid
        rcases Nat.lt_trichotomy j i with hlt' | he | hgt'
        · have hne := List.pairwise_iff_getElem.mp huniq j i hj hlt hlt'
          rw [this, hbi] at hne
          exact hne rfl
        · exact hji he
        · have hne := List.pairwise_iff_getElem.mp huniq i j hlt hj hgt'
          rw [this, hbi] at hne
          exact hne rfl
    · rw [← hmkeq]
      apply mem_generateTimetable_of_included _ _ _ _ _
        (by
          have hlt2 : i < (blocks.set i b2).length := by
            rw [List.length_set]
            exact hlt
          have hbm : (blocks.set i b2)[i] = b2 := List.getElem_set_self hlt2
          have hm := List.getElem_mem hlt2
          rwa [hbm] at hm)
      · have hnc : ((r.exceptions ++ [dayIndex d]).contains (dayIndex d + 1)) = false := by
          simp only [List.contains_eq_any_beq, List.any_eq_false]
          intro x hx hbeq
          rw [beq_iff_eq] at hbeq
          subst hbeq
          rcases List.mem_append.mp hx with h | h
          · exact hnext h
          · rw [List.mem_singleton] at h
            omega
        simp only [shouldIncludeBlock, hb2]
        rw [hdayd1, if_neg (by rw [hnc]; exact Bool.false_ne_true), hdaily]
      · omega

end Sched

namespace Sched

/-! ## C8: carry-forward of overdue unscheduled tasks -/

/-- An overdue (deadline day 9) unscheduled 60-minute task. -/
def c8Task : Task :=
  { id := "t8", name := "T8", duration := 60, deadline := 14000,
    priority := .low, type := .work, completed := false }

/-- C8 counterexample: for today's date (day 10) with `now` = 22:45, the
working window is advanced to 23:00 and no slot of 60 minutes fits before the
23:00 day end, so the overdue unscheduled task is *not* placed: the output is
empty, contradicting the unconditional carry-forward claim. -/
theorem carry_forward_counterexample :
    c8Task.completed = false ∧ c8Task.scheduledTime = none
    ∧ dayIndex c8Task.deadline < dayIndex 15765
    ∧ sameDay 14400 15765 = true
    ∧ generateTimetable 14400 [c8Task] [] 15765 = [] := by
  decide

theorem startOfDay_startOfDay (t : Nat) : startOfDay (startOfDay t) = startOfDay t := by
  simp only [startOfDay, dayIndex]
  rw [Nat.mul_div_cancel_left _ (by decide : 0 < minutesPerDay)]

/-- A `filterMap` that never drops anything is a `map`. -/
theorem filterMap_eq_map_of_all_some {α β : Type} {f : α → Option β} {g : α → β} :
    ∀ {l : List α}, (∀ a ∈ l, f a = some (g a)) → l.filterMap f = l.map g
  | [], _ => rfl
  | a :: l, h => by
    rw [List.filterMap_cons, h a (List.mem_cons_self a l), List.map_cons,
      filterMap_eq_map_of_all_some fun x hx => h x (List.mem_cons_of_mem a hx)]

/-- On an empty timetable, the granule list starts with `req` available
granules at 15-minute steps from `dayStart` (provided they fit). -/
theorem buildSlots_nil_prefix (dayStart : Nat) (latest : Int) (dayEnd : Nat)
    (req : Nat) (hn : req ≤ ((latest - (dayStart : Int) + 14).toNat) / 15)
    (hend : dayStart + 15 * req ≤ dayEnd) :
    ∃ rest, buildSlots dayStart latest dayEnd []
      = ((List.range req).map fun i => Slot.mk (dayStart + 15 * i) true) ++ rest := by
  simp only [buildSlots, List.all_nil]
  refine ⟨(List.drop req (List.range (((latest - (dayStart : Int) + 14).toNat) / 15))).filterMap
    fun i => if dayStart + 15 * i + 15 ≤ dayEnd
      then some (Slot.mk (dayStart + 15 * i) true) else none, ?_⟩
  conv_lhs => rw [← List.take_append_drop req
    (List.range (((latest - (dayStart : Int) + 14).toNat) / 15))]
  rw [List.filterMap_append]
  congr 1
  · rw [List.take_range, Nat.min_eq_left hn]
    apply filterMap_eq_map_of_all_some
    intro i hi
    rw [List.mem_range] at hi
    rw [if_pos (by omega)]

/-- On an empty timetable a task whose rounded-up duration fits between the
(adjusted) window start and the 23:00 day end is placed at the window start. -/
theorem findAvailableSlot_empty (dur date now : Nat)
    (hguard : ¬ dayIndex date < dayIndex now)
    (hdur : 0 < dur)
    (hroom : adjustedDayStart date now + 15 * ((dur + 14) / 15) + dur
      ≤ startOfDay date + 23 * 60) :
    findAvailableSlot [] dur date now none 0
      = some (adjustedDayStart date now, adjustedDayStart date now + dur) := by
  have hdm := Nat.div_add_mod (dur + 14) 15
  have hml : (dur + 14) % 15 < 15 := Nat.mod_lt _ (by decide)
  have h15 : dur ≤ 15 * ((dur + 14) / 15) := by omega
  have hreq1 : 1 ≤ (dur + 14) / 15 := by
    rw [Nat.le_div_iff_mul_le (by decide : 0 < 15)]
    omega
  simp only [findAvailableSlot]
  rw [if_neg hguard]
  set ds := adjustedDayStart date now with hds
  set dayEnd := startOfDay date + 23 * 60 with hde
  set req := (dur + 14) / 15 with hreq
  obtain ⟨rest, hslots⟩ := buildSlots_nil_prefix ds ((dayEnd : Int) - (dur : Int))
    dayEnd req
    (by
      rw [Nat.le_div_iff_mul_le (by decide : 0 < 15)]
      omega)
    (by omega)
  rw [hslots]
  set A := (List.range req).map fun i => Slot.mk (ds + 15 * i) true with hA
  have hAlen : A.length = req := by
    rw [hA, List.length_map, List.length_range]
  have hcand : (A ++ rest).length + 1 - req = rest.length + 1 := by
    rw [List.length_append, hAlen]
    omega
  rw [hcand, List.range_succ_eq_map]
  simp only [tryRuns]
  have hcons : ((A ++ rest).drop 0).take req = A := by
    rw [List.drop_zero]
    exact List.take_left' hAlen
  have hall : (A.all fun s => s.available) = true := by
    rw [List.all_eq_true]
    intro s hs
    rw [hA, List.mem_map] at hs
    obtain ⟨i, _, rfl⟩ := hs
    rfl
  have hhead : A.head? = some (Slot.mk ds true) := by
    obtain ⟨m, hm⟩ : ∃ m, req = m + 1 := ⟨req - 1, by omega⟩
    rw [hA, hm, List.range_succ_eq_map]
    simp
  have hatt : attemptRun (A ++ rest) req dur dayEnd [] none 0 0
      = some (ds, ds + dur) := by
    simp only [attemptRun, hcons, hall, hhead, breakTooSoon, List.any_nil]
    rw [if_neg (by omega : ¬ dayEnd < ds + dur)]
    simp
  rw [hatt]

/-- C8 amended: an incomplete, unscheduled task whose deadline day is strictly
before today is carried forward and placed by `generateTimetable` for today,
*provided there is room*: the adjusted window start, plus the task's duration
rounded up to whole 15-minute granules, plus the task's duration once more,
is at most the 23:00 day end.  The extra duration term is forced by the slot
scan, which only generates candidate start points up to 23:00 minus the
duration.  (The unconditional claim fails when `now` is too late in the day —
see the counterexample.) -/
theorem carry_forward_amended (t : Task) (d now : Nat)
    (hsame : dayIndex d = dayIndex now)
    (hcomp : t.completed = false)
    (hsched : t.scheduledTime = none)
    (hover : dayIndex t.deadline < dayIndex now)
    (hdur : 0 < t.duration)
    (hroom : adjustedDayStart (startOfDay d) now + 15 * ((t.duration + 14) / 15)
        + t.duration ≤ startOfDay d + 23 * 60) :
    ∃ tb ∈ generateTimetable d [t] [] now,
      tb.type = BlockType.task ∧ tb.taskId = some t.id := by
  have hguard : ¬ dayIndex d < dayIndex now := by omega
  have hguard2 : ¬ dayIndex (startOfDay d) < dayIndex now := by
    rw [dayIndex_startOfDay]
    omega
  have he : getTasksForRescheduling [t] (startOfDay d) now = [t] := by
    simp [getTasksForRescheduling, hcomp, hsched, dayIndex_startOfDay, hsame, hover]
  have hp : prioritizeTasks [t] (startOfDay d) now = [t] := rfl
  have hfs := findAvailableSlot_empty t.duration (startOfDay d) now hguard2 hdur
    (by rw [startOfDay_startOfDay]; exact hroom)
  simp only [generateTimetable, placeTasks]
  rw [if_neg hguard]
  rw [show unavailableBlocksFor [] (startOfDay d) = [] from rfl]
  rw [show existingScheduledBlocks [t] (startOfDay d) now = [] by
    simp [existingScheduledBlocks, hcomp, hsched]]
  rw [he, hp]
  simp only [placeTasksGo, List.nil_append]
  rw [hfs]
  set blk := mkTaskBlock t (adjustedDayStart (startOfDay d) now)
    (adjustedDayStart (startOfDay d) now + t.duration) (startOfDay d) with hblk
  refine ⟨blk, ?_, rfl, rfl⟩
  rw [List.mem_insertionSort, List.mem_filter]
  constructor
  · simp only [insertIntelligentBreaks]
    apply List.mem_append_left
    exact List.mem_singleton_self blk
  · rw [hblk]
    simp [keepBlock, mkTaskBlock, hcomp]

/-- Witness for the amended C8: day 10 at 06:00, the overdue task from the
counterexample is placed. -/
theorem carry_forward_amended_witness :
    ∃ tb ∈ generateTimetable 14400 [c8Task] [] 14760,
      tb.type = BlockType.task ∧ tb.taskId = some c8Task.id :=
  carry_forward_amended c8Task 14400 14760 (by decide) (by decide) (by decide)
    (by decide) (by decide) (by decide)

end Sched

namespace Sched

/-- A daily recurring unavailable block 10:00–10:30, for the C5 witness. -/
def c5Block : UnavailableBlock :=
  { id := "u", title := "U", startTime := 600, endTime := 630,
    recurring := some { type := .daily } }

/-- Witness for C5 at a concrete input: excepting day 10 suppresses the block
for day 10 and keeps it for day 11. -/
theorem addException_round_trip_witness :
    (∀ tb ∈ generateTimetable 14400 []
        (addExceptionToRecurringBlock [c5Block] c5Block.id 14400).1 14760,
      tb ≠ mkUnavailableTimeBlock c5Block (startOfDay 14400))
    ∧ mkUnavailableTimeBlock c5Block (startOfDay (14400 + minutesPerDay))
        ∈ generateTimetable (14400 + minutesPerDay) []
            (addExceptionToRecurringBlock [c5Block] c5Block.id 14400).1 14760 :=
  addException_round_trip [] [c5Block] c5Block { type := .daily } 14400 14760
    (by decide) rfl rfl (by decide) (by decide) (by decide)

end Sched

namespace Sched

/-- Witness for the amended C1 at concrete inputs: the day-10 run behind the
counterexample satisfies the exception-qualified pairwise no-overlap, and
moving the C4 task to 08:00 keeps the two-block timetable non-overlapping. -/
theorem timetable_no_overlap_except_break_unavailable_witness :
    (generateTimetable 14400 [c1TaskA, c1TaskB] [c1BlockBusy] 13680).Pairwise
      (fun a b => ¬ breakUnavailablePair a b → ¬ blockOverlaps a b)
    ∧ (rescheduleTask "m" 480 [c4TaskBlock, c4Unavail]).Pairwise
        fun a b => ¬ blockOverlaps a b :=
  ⟨timetable_no_overlap_except_break_unavailable.1 14400 [c1TaskA, c1TaskB]
      [c1BlockBusy] 13680 (by decide) (by decide),
    timetable_no_overlap_except_break_unavailable.2 "m" 480
      [c4TaskBlock, c4Unavail] (by decide)⟩

end Sched
